import Mathlib

/-!
Verification of the soledad `leap_backend` sync client against its design
specification.

The development shallowly embeds the Python source of
`src/leap/soledad/backends/leap_backend.py`:

* JSON values are an inductive type `Json`; the standard library's
  `json.dumps` / `json.loads` are modelled by an executable printer `dumps`
  and a fuel-based recursive-descent `loads`.  The model keeps Python's
  default separators (`", "` and `": "`).  Simplifications of the stdlib
  (none of which any claim depends on): numbers are integers (the protocol
  only carries integer generations), string escaping covers the two
  structural characters `"` and `\` (Python additionally escapes control
  and non-ASCII characters; both sides of the model agree, so round-trip
  behaviour matches), and object key order in `dumps` is the construction
  order (Python 2 dict order is unspecified).
* The crypto collaborator (`SoledadCrypto`) and the inherited `_error`
  hook of u1db's `HTTPSyncTarget` are external to the repository and are
  parameters of the embedding.
* Python exceptions are an error type `SyncErr`; functions that can raise
  return `Except SyncErr`.
-/

/-- A JSON value, as produced by `json.loads`. -/
inductive Json where
  | null
  | bool (b : Bool)
  | num (n : Int)
  | str (s : String)
  | arr (items : List Json)
  | obj (members : List (String × Json))
deriving Repr

/-- Python `dict` lookup on a parsed JSON object: with duplicate keys the
later member wins (later assignments overwrite), hence the scan of the
tail first. -/
def jLookup (k : String) : List (String × Json) → Option Json
  | [] => none
  | (k1, v1) :: rest =>
    match jLookup k rest with
    | some v => some v
    | none => if k1 = k then some v1 else none

/-- Exceptions raised by the embedded code.  `wireError` stands for a
u1db wire-description error raised by the inherited `_error` hook. -/
inductive SyncErr where
  | brokenSyncStream
  | documentNotEncrypted (msg : String)
  | nameError (missingName : String)
  | valueError
  | keyError (k : String)
  | typeError
  | assertionError
  | wireError (payload : Json)
deriving Repr

/-- Python `content[k]`: `KeyError` on a dict without the key,
`TypeError` when indexing a non-dict with a string. -/
def getItemE (j : Json) (k : String) : Except SyncErr Json :=
  match j with
  | .obj kvs =>
    match jLookup k kvs with
    | some v => .ok v
    | none => .error (.keyError k)
  | _ => .error .typeError

/-- `getItemE` with a default, for places the source guards with an `in`
check first. -/
def jsonGetD (j : Json) (k : String) : Json :=
  match getItemE j k with
  | .ok v => v
  | .error _ => .null

/-- Python truthiness of a parsed JSON value (`if doc.content ...`). -/
def jsonTruthy : Json → Bool
  | .null => false
  | .bool b => b
  | .num n => n != 0
  | .str s => s != ""
  | .arr items => !items.isEmpty
  | .obj members => !members.isEmpty

/-- Python `k in content` for the shapes the protocol actually carries
(objects).  Python's `in` on lists and strings means element/substring
membership; the metadata and content values of this protocol are JSON
objects, so the model restricts `in` to key membership and answers
`false` elsewhere. -/
def jsonHasKey (j : Json) (k : String) : Bool :=
  match j with
  | .obj kvs => (jLookup k kvs).isSome
  | _ => false

/-- JSON string escaping for one character (structural characters only;
see the header note). -/
def escChar (c : Char) : List Char :=
  if c = '"' then ['\\', '"']
  else if c = '\\' then ['\\', '\\']
  else [c]

/-- The characters of the JSON string literal for `s`, quotes included. -/
def dumpStrL (s : String) : List Char :=
  '"' :: (s.data.flatMap escChar ++ ['"'])

/-- The JSON string literal for `s`. -/
def dumpStr (s : String) : String :=
  String.mk (dumpStrL s)

mutual

/-- `json.dumps` with the default separators. -/
def dumps : Json → String
  | .null => "null"
  | .bool b => if b then "true" else "false"
  | .num n => toString n
  | .str s => dumpStr s
  | .arr items => "[" ++ dumpsItems items ++ "]"
  | .obj members => "\x7b" ++ dumpsMembers members ++ "\x7d"

/-- Array elements, `", "`-separated. -/
def dumpsItems : List Json → String
  | [] => ""
  | [x] => dumps x
  | x :: y :: rest => dumps x ++ ", " ++ dumpsItems (y :: rest)

/-- Object members, `", "`-separated, `": "` after each key. -/
def dumpsMembers : List (String × Json) → String
  | [] => ""
  | [(k, v)] => dumpStr k ++ ": " ++ dumps v
  | (k, v) :: m :: rest => dumpStr k ++ ": " ++ dumps v ++ ", " ++ dumpsMembers (m :: rest)

end

mutual

/-- Python `==` on parsed JSON values.  The embedded code only ever
compares the `_encryption_scheme` value with the string `"symkey"`;
Python cross-type quirks (`True == 1`, order-insensitive dict equality)
are outside every exercised comparison. -/
def jEq : Json → Json → Bool
  | .null, .null => true
  | .bool a, .bool b => a == b
  | .num a, .num b => a == b
  | .str a, .str b => a == b
  | .arr a, .arr b => jEqItems a b
  | .obj a, .obj b => jEqMembers a b
  | _, _ => false

/-- Elementwise `jEq` on arrays. -/
def jEqItems : List Json → List Json → Bool
  | [], [] => true
  | a :: as, b :: bs => jEq a b && jEqItems as bs
  | _, _ => false

/-- Memberwise `jEq` on objects. -/
def jEqMembers : List (String × Json) → List (String × Json) → Bool
  | [], [] => true
  | (k1, v1) :: as, (k2, v2) :: bs => k1 == k2 && jEq v1 v2 && jEqMembers as bs
  | _, _ => false

end

/-- Skip JSON whitespace (`json.loads` tolerates surrounding blanks). -/
def skipWs : List Char → List Char
  | [] => []
  | c :: rest =>
    if c = ' ' ∨ c = '\t' ∨ c = '\n' ∨ c = '\r' then skipWs rest else c :: rest

/-- Parse the body of a JSON string literal after the opening quote,
undoing `escChar`; returns the content and the remainder past the
closing quote. -/
def parseStrBody : List Char → Option (List Char × List Char)
  | [] => none
  | c :: rest =>
    if c = '"' then some ([], rest)
    else if c = '\\' then
      match rest with
      | [] => none
      | e :: rest2 =>
        if e = '"' ∨ e = '\\' then
          (parseStrBody rest2).map (fun p => (e :: p.1, p.2))
        else none
    else (parseStrBody rest).map (fun p => (c :: p.1, p.2))
termination_by structural cs => cs

/-- Longest leading run of decimal digits. -/
def takeDigits : List Char → List Char × List Char
  | [] => ([], [])
  | c :: rest =>
    if c.isDigit then
      let p := takeDigits rest
      (c :: p.1, p.2)
    else ([], c :: rest)

/-- Decimal value of a digit run. -/
def digitsToNat (acc : Nat) : List Char → Nat
  | [] => acc
  | c :: cs => digitsToNat (acc * 10 + (c.toNat - 48)) cs

/-- Consume an expected literal tail (`rue`, `alse`, `ull`). -/
def stripLit : List Char → List Char → Option (List Char)
  | [], rest => some rest
  | _, [] => none
  | l :: ls, c :: rest => if c = l then stripLit ls rest else none

mutual

/-- Recursive-descent JSON value parser, structural on `fuel` (one unit
of fuel is spent per recursive call, and every call consumes at least
one input character, so `length + 1` fuel always suffices). -/
def parseVal : Nat → List Char → Option (Json × List Char)
  | 0, _ => none
  | fuel + 1, cs =>
    match skipWs cs with
    | [] => none
    | c :: rest =>
      if c = '\x7b' then
        match skipWs rest with
        | [] => none
        | c2 :: rest2 =>
          if c2 = '\x7d' then some (.obj [], rest2)
          else parseMembers fuel (c2 :: rest2)
      else if c = '[' then
        match skipWs rest with
        | [] => none
        | c2 :: rest2 =>
          if c2 = ']' then some (.arr [], rest2)
          else parseItems fuel (c2 :: rest2)
      else if c = '"' then
        (parseStrBody rest).map (fun p => (.str (String.mk p.1), p.2))
      else if c = 't' then
        (stripLit ['r', 'u', 'e'] rest).map (fun r => (.bool true, r))
      else if c = 'f' then
        (stripLit ['a', 'l', 's', 'e'] rest).map (fun r => (.bool false, r))
      else if c = 'n' then
        (stripLit ['u', 'l', 'l'] rest).map (fun r => (.null, r))
      else if c = '-' then
        match takeDigits rest with
        | ([], _) => none
        | (ds, r) => some (.num (-(digitsToNat 0 ds : Nat)), r)
      else if c.isDigit then
        match takeDigits (c :: rest) with
        | (ds, r) => some (.num (digitsToNat 0 ds : Nat), r)
      else none
termination_by structural fuel _ => fuel

/-- Members of an object after `\x7b`, first key expected at the head. -/
def parseMembers : Nat → List Char → Option (Json × List Char)
  | 0, _ => none
  | fuel + 1, cs =>
    match cs with
    | [] => none
    | c :: rest =>
      if c = '"' then
        match parseStrBody rest with
        | none => none
        | some (k, r1) =>
          match skipWs r1 with
          | [] => none
          | c2 :: r2 =>
            if c2 = ':' then
              match parseVal fuel r2 with
              | none => none
              | some (v, r3) =>
                match skipWs r3 with
                | [] => none
                | c4 :: r4 =>
                  if c4 = ',' then
                    match parseMembers fuel (skipWs r4) with
                    | some (.obj kvs, r5) => some (.obj ((String.mk k, v) :: kvs), r5)
                    | _ => none
                  else if c4 = '\x7d' then some (.obj [(String.mk k, v)], r4)
                  else none
            else none
      else none
termination_by structural fuel _ => fuel

/-- Items of an array after `[`, first value expected at the head. -/
def parseItems : Nat → List Char → Option (Json × List Char)
  | 0, _ => none
  | fuel + 1, cs =>
    match parseVal fuel cs with
    | none => none
    | some (v, r1) =>
      match skipWs r1 with
      | [] => none
      | c2 :: r2 =>
        if c2 = ',' then
          match parseItems fuel (skipWs r2) with
          | some (.arr vs, r3) => some (.arr (v :: vs), r3)
          | _ => none
        else if c2 = ']' then some (.arr [v], r2)
        else none
termination_by structural fuel _ => fuel

end

/-- `json.loads` on a character list: parse one value, then require only
trailing whitespace.  Failure (`none`) stands for `ValueError`. -/
def loadsL (cs : List Char) : Option Json :=
  match parseVal (cs.length + 1) cs with
  | some (v, rest) => if skipWs rest = [] then some v else none
  | none => none

/-- `json.loads`. -/
def loads (s : String) : Option Json := loadsL s.data

/-- The crypto collaborator (`leap.soledad.crypto.SoledadCrypto`),
external to this repository: symmetric primitive, its ciphertext
detector, and the per-document key derivation. -/
structure SoledadCrypto where
  encrypt_sym : String → String → String
  decrypt_sym : String → String → String
  is_encrypted_sym : String → Bool
  passphrase_hash : String → String

/-- Message of the `DocumentNotEncrypted` raised by `encrypt_doc_json`. -/
def failedEncryptingMsg : String := "Failed encrypting document."

/-- Message of the `DocumentNotEncrypted` raised by `decrypt_doc_json`. -/
def notEncryptedIncomingMsg : String :=
  "Unable to identify document encryption for incoming document, although it is marked as being encrypted with a symmetric key."

/-- `encrypt_doc_json` (leap_backend.py lines 87-117): encrypt the
document JSON under `passphrase_hash doc_id`, self-check the ciphertext
with the detector, and serialize the two-field envelope. -/
def encrypt_doc_json (crypto : SoledadCrypto) (doc_id doc_json : String) :
    Except SyncErr String :=
  let ciphertext := crypto.encrypt_sym doc_json (crypto.passphrase_hash doc_id)
  if crypto.is_encrypted_sym ciphertext = false then
    .error (.documentNotEncrypted failedEncryptingMsg)
  else
    .ok (dumps (.obj [("_encrypted_json", .str ciphertext),
      ("_encryption_scheme", .str "symkey")]))

/-- `decrypt_doc_json` (leap_backend.py lines 120-167).  The two
`leap_assert` calls reject empty arguments before any parsing (the
`isinstance(_, str)` halves hold by typing in this embedding).  The
`else` branch of the scheme dispatch executes
`raise UnknownEncryptionScheme(enc_scheme)`, but the class defined in
the module is `UnknownEncryptionSchemes`, so evaluating that undefined
name raises `NameError`.  A non-string ciphertext value reaching the
string-typed collaborator is modelled as `TypeError`. -/
def decrypt_doc_json (crypto : SoledadCrypto) (doc_id doc_json : String) :
    Except SyncErr String :=
  if doc_id = "" then .error .assertionError
  else if doc_json = "" then .error .assertionError
  else
    match loads doc_json with
    | none => .error .valueError
    | some content =>
      match getItemE content "_encrypted_json" with
      | .error e => .error e
      | .ok ciphertext =>
        match getItemE content "_encryption_scheme" with
        | .error e => .error e
        | .ok enc_scheme =>
          if jEq enc_scheme (.str "symkey") then
            match ciphertext with
            | .str ct =>
              if crypto.is_encrypted_sym ct = false then
                .error (.documentNotEncrypted notEncryptedIncomingMsg)
              else .ok (crypto.decrypt_sym ct (crypto.passphrase_hash doc_id))
            | _ => .error .typeError
          else .error (.nameError "UnknownEncryptionScheme")

/-- A concrete crypto collaborator for closed instances: prefix the key,
accept every ciphertext. -/
def demoCrypto : SoledadCrypto where
  encrypt_sym := fun p k => k ++ p
  decrypt_sym := fun c k => c.drop k.length
  is_encrypted_sym := fun _ => true
  passphrase_hash := fun d => d ++ "-key"

/-- `LeapDocument` (leap_backend.py lines 170-248): u1db document plus
the `syncable` flag; `json_` is the stored JSON string (`None` for a
tombstone). -/
structure LeapDocument where
  doc_id : String
  rev : Option String
  json_ : Option String
  has_conflicts : Bool := false
  syncable : Bool := true
deriving Repr

/-- u1db `Document.get_json()`. -/
def LeapDocument.get_json (d : LeapDocument) : Option String := d.json_

/-- u1db `Document.is_tombstone()`: no content. -/
def LeapDocument.is_tombstone (d : LeapDocument) : Bool := d.json_.isNone

/-- `str.splitlines` worker (split on `\n`, `\r\n`, `\r`; Python's
exotic additional separators are unused by this protocol). -/
def splitlinesAux : List Char → List Char → List String
  | acc, [] => if acc.isEmpty then [] else [String.mk acc.reverse]
  | acc, '\r' :: '\n' :: rest => String.mk acc.reverse :: splitlinesAux [] rest
  | acc, '\r' :: rest => String.mk acc.reverse :: splitlinesAux [] rest
  | acc, '\n' :: rest => String.mk acc.reverse :: splitlinesAux [] rest
  | acc, c :: rest => splitlinesAux (c :: acc) rest
termination_by structural _ cs => cs

/-- Python `str.splitlines()`. -/
def splitlines (s : String) : List String := splitlinesAux [] s.data

/-- u1db `utils.check_and_strip_comma`: strip one trailing comma and
report whether it was there. -/
def check_and_strip_comma (line : String) : String × Bool :=
  if line ≠ "" ∧ line.back = ',' then (line.dropRight 1, true)
  else (line, false)

/-- Read a wire value that must be a JSON string or `null` (`id` must be
a string): the document constructor of the model is string-typed, which
is the only shape §6 of the wire format admits. -/
def optStrOfJson : Json → Option (Option String)
  | .null => some none
  | .str s => some (some s)
  | _ => none

/-- The content step of `_parse_sync_stream` (leap_backend.py lines
317-326): access `doc.content` (parsing the stored string; `ValueError`
if invalid), and when it is truthy, carries `_encryption_scheme`, and
the scheme equals `symkey`, replace the document JSON with
`decrypt_doc_json` on the original wire string; otherwise the content
passes through untouched. -/
def decryptIfNeeded (crypto : SoledadCrypto) (doc_id : String) :
    Option String → Except SyncErr (Option String)
  | none => .ok none
  | some s =>
    match loads s with
    | none => .error .valueError
    | some c =>
      if jsonTruthy c && jsonHasKey c "_encryption_scheme" then
        if jEq (jsonGetD c "_encryption_scheme") (.str "symkey") then
          match decrypt_doc_json crypto doc_id s with
          | .error e => .error e
          | .ok plain => .ok (some plain)
        else .ok (some s)
      else .ok (some s)

/-- One document entry of the incoming stream (leap_backend.py lines
310-327): look up `id`, `rev`, `content`, build the document, decrypt
when needed, then look up `gen` and `trans_id` for the callback. -/
def processEntry (crypto : SoledadCrypto) (entry : Json) :
    Except SyncErr (LeapDocument × Json × Json) :=
  match getItemE entry "id" with
  | .error e => .error e
  | .ok idJ =>
    match getItemE entry "rev" with
    | .error e => .error e
    | .ok revJ =>
      match getItemE entry "content" with
      | .error e => .error e
      | .ok contentJ =>
        match idJ with
        | .str doc_id =>
          match optStrOfJson revJ with
          | none => .error .typeError
          | some rev =>
            match optStrOfJson contentJ with
            | none => .error .typeError
            | some json0 =>
              match decryptIfNeeded crypto doc_id json0 with
              | .error e => .error e
              | .ok json1 =>
                match getItemE entry "gen" with
                | .error e => .error e
                | .ok gen =>
                  match getItemE entry "trans_id" with
                  | .error e => .error e
                  | .ok tid => .ok (⟨doc_id, rev, json1, false, true⟩, gen, tid)
        | _ => .error .typeError

/-- The entry loop of `_parse_sync_stream` (lines 307-327): each further
data line needs the previous line's trailing comma, is comma-stripped,
parsed, processed, and its document accumulated in callback order; the
final comma flag feeds the post-loop check. -/
def parseLoop (crypto : SoledadCrypto) :
    List String → Bool → List (LeapDocument × Json × Json) →
    List (LeapDocument × Json × Json) × Bool × Option SyncErr
  | [], comma, acc => (acc, comma, none)
  | entryLine :: restL, comma, acc =>
    if comma = false then (acc, comma, some .brokenSyncStream)
    else
      match check_and_strip_comma entryLine with
      | (line, comma2) =>
        match loads line with
        | none => (acc, comma2, some .valueError)
        | some entry =>
          match processEntry crypto entry with
          | .error e => (acc, comma2, some e)
          | .ok t => parseLoop crypto restL comma2 (acc ++ [t])
termination_by structural ls _ _ => ls

/-- The final-line handling of `_parse_sync_stream` (lines 328-336) when
`parts[-1] != ']'`: try to parse it; a parsed dict goes through the
inherited `_error` hook (`errorOf`), which raises its mapped wire error
when it recognizes the payload; in every other case the framing error
`BrokenSyncStream` is raised. -/
def lastLineError (errorOf : Json → Option SyncErr) (lastLine : String) : SyncErr :=
  match loads lastLine with
  | none => .brokenSyncStream
  | some j =>
    match j with
    | .obj kvs =>
      match errorOf (.obj kvs) with
      | some e => e
      | none => .brokenSyncStream
    | _ => .brokenSyncStream

/-- Observable outcome of `_parse_sync_stream`: the values passed to
`ensure_callback`, the `(doc, gen, trans_id)` triples passed to
`return_doc_cb` before the stream ended or failed, and the returned
metadata object or the raised exception. -/
structure ParseResult where
  ensured : List Json
  delivered : List (LeapDocument × Json × Json)
  result : Except SyncErr Json
deriving Repr

/-- `LeapSyncTarget._parse_sync_stream` (leap_backend.py lines 281-339).
`hasEnsure` is whether an `ensure_callback` was supplied.  `errorOf`
models the inherited u1db `_error` hook (external collaborator). -/
def parseSyncStream (crypto : SoledadCrypto) (errorOf : Json → Option SyncErr)
    (hasEnsure : Bool) (data : String) : ParseResult :=
  match splitlines data with
  | [] => ⟨[], [], .error .brokenSyncStream⟩
  | first :: rest =>
    if first ≠ "[" then ⟨[], [], .error .brokenSyncStream⟩
    else
      let lastLine := rest.getLast?.getD first
      match rest.dropLast with
      | [] =>
        if lastLine ≠ "]" then ⟨[], [], .error (lastLineError errorOf lastLine)⟩
        else ⟨[], [], .error .brokenSyncStream⟩
      | m :: ds =>
        match check_and_strip_comma m with
        | (line, comma) =>
          match loads line with
          | none => ⟨[], [], .error .valueError⟩
          | some res =>
            let ens := if hasEnsure && jsonHasKey res "replica_uid"
                       then [jsonGetD res "replica_uid"] else []
            match parseLoop crypto ds comma [] with
            | (acc, _, some e) => ⟨ens, acc, .error e⟩
            | (acc, commaF, none) =>
              if lastLine ≠ "]" then ⟨ens, acc, .error (lastLineError errorOf lastLine)⟩
              else if commaF then ⟨ens, acc, .error .brokenSyncStream⟩
              else ⟨ens, acc, .ok res⟩

/-- An `_error` collaborator that recognizes every dict payload, the way
u1db's hook does for a payload whose `error` field carries a known wire
description. -/
def recognizingError : Json → Option SyncErr :=
  fun payload => some (.wireError payload)

/-- The metadata line of the outgoing stream (lines 363-367), with its
`prepare` framing (empty comma prefix plus CRLF). -/
def metaLine (lastGen : Int) (lastTid : String) (ensure : Bool) : String :=
  "\r\n" ++ dumps (.obj [("last_known_generation", .num lastGen),
    ("last_known_trans_id", .str lastTid), ("ensure", .bool ensure)])

/-- The envelope string `encrypt_doc_json` serializes when the detector
accepts the ciphertext. -/
def encEnvelope (crypto : SoledadCrypto) (doc_id doc_json : String) : String :=
  dumps (.obj [("_encrypted_json",
    .str (crypto.encrypt_sym doc_json (crypto.passphrase_hash doc_id))),
    ("_encryption_scheme", .str "symkey")])

/-- `None → null`, `str → string`, as `json.dumps` renders the `rev` and
`content` values. -/
def jsonOfOptStr : Option String → Json
  | none => .null
  | some s => .str s

/-- One outgoing document entry line (lines 383-385), with its `prepare`
framing (comma prefix plus CRLF). -/
def docLine (doc : LeapDocument) (gen : Int) (tid : String) (contentJ : Json) :
    String :=
  ",\r\n" ++ dumps (.obj [("id", .str doc.doc_id), ("rev", jsonOfOptStr doc.rev),
    ("content", contentJ), ("gen", .num gen), ("trans_id", .str tid)])

/-- The document loop of `sync_exchange` (lines 369-385): skip
non-syncable documents (every document of this model is a
`LeapDocument`); a tombstone's `get_json()` goes out as-is, any other
document's JSON is replaced by its encryption envelope; each surviving
document appends one entry line. -/
def syncEntriesLoop (crypto : SoledadCrypto) :
    List (LeapDocument × Int × String) → List String → Except SyncErr (List String)
  | [], acc => .ok acc
  | (doc, gen, tid) :: restDocs, acc =>
    if doc.syncable = false then syncEntriesLoop crypto restDocs acc
    else
      match doc.json_ with
      | none => syncEntriesLoop crypto restDocs
          (acc ++ [docLine doc gen tid (jsonOfOptStr doc.get_json)])
      | some j =>
        match encrypt_doc_json crypto doc.doc_id j with
        | .error e => .error e
        | .ok env => syncEntriesLoop crypto restDocs
            (acc ++ [docLine doc gen tid (.str env)])
termination_by structural ds _ => ds

/-- The complete outgoing `entries` list of `sync_exchange` (lines
355-387): `[`, the metadata line, one line per syncable document, and
the closing `]` chunk. -/
def syncEntries (crypto : SoledadCrypto) (docs : List (LeapDocument × Int × String))
    (lastGen : Int) (lastTid : String) (ensure : Bool) : Except SyncErr (List String) :=
  match syncEntriesLoop crypto docs ["[", metaLine lastGen lastTid ensure] with
  | .error e => .error e
  | .ok body => .ok (body ++ ["\r\n]"])

/-- The closed-form entry line for a syncable document, used to state
the shape of the outgoing stream. -/
def mkDocLine (crypto : SoledadCrypto) (x : LeapDocument × Int × String) : String :=
  docLine x.1 x.2.1 x.2.2
    (match x.1.json_ with
     | none => Json.null
     | some j => .str (encEnvelope crypto x.1.doc_id j))

/-- `LeapSyncTarget.sync_exchange` (lines 341-396), transport effects
aside: build the outgoing entries, parse the response, and return the
metadata's `new_generation` and `new_transaction_id`; any exception on
the way propagates instead. -/
def sync_exchange (crypto : SoledadCrypto) (errorOf : Json → Option SyncErr)
    (docs : List (LeapDocument × Int × String)) (lastGen : Int) (lastTid : String)
    (hasEnsure : Bool) (responseData : String) : Except SyncErr (Json × Json) :=
  match syncEntries crypto docs lastGen lastTid hasEnsure with
  | .error e => .error e
  | .ok _ =>
    match (parseSyncStream crypto errorOf hasEnsure responseData).result with
    | .error e => .error e
    | .ok res =>
      match getItemE res "new_generation" with
      | .error e => .error e
      | .ok g =>
        match getItemE res "new_transaction_id" with
        | .error e => .error e
        | .ok t => .ok (g, t)

/-- Modelled from the spec: the delivery state of
`leap.soledad.client.encdecpool.SyncDecrypterPool` (the module itself is
not part of the source slice; only its tests are).  Per §4.3 of the
design: a session expects `expected` documents; `next` is the
next-expected sequence index (starting at 1); `pending` is the
pending-delivery set of decrypted-but-undelivered documents keyed by
sequence index; `delivered` records the insertion-callback invocations
in order; `fired` counts resolutions of the completion signal.  The
decryption of an individual document is abstracted into the completed
payload `α`. -/
structure DecrypterPool (α : Type) where
  expected : Nat
  next : Nat
  pending : Nat → Option α
  delivered : List α
  fired : Nat

/-- Modelled from the spec: `Start(expectedCount)` — fresh session,
next-expected counter at 1, empty pending set, nothing delivered, the
completion signal unresolved. -/
def poolStart (α : Type) (expected : Nat) : DecrypterPool α :=
  ⟨expected, 1, fun _ => none, [], 0⟩

/-- Modelled from the spec: the drain step of §4.3 — deliver the
contiguous run of pending documents starting at the next-expected index,
advancing the counter, and stop at the first gap.  The fuel only bounds
the loop (one delivery per unit); `expected + 1` units always cover a
session's run. -/
def poolDrain {α : Type} : Nat → DecrypterPool α → DecrypterPool α
  | 0, st => st
  | fuel + 1, st =>
    match st.pending st.next with
    | none => st
    | some a =>
      poolDrain fuel
        { st with
          next := st.next + 1
          pending := fun k => if k = st.next then none else st.pending k
          delivered := st.delivered ++ [a] }
termination_by structural fuel _ => fuel

/-- Modelled from the spec: completion — once `expected` documents have
been delivered, resolve the completion signal, and never resolve it
twice. -/
def poolFire {α : Type} (st : DecrypterPool α) : DecrypterPool α :=
  if st.delivered.length = st.expected ∧ st.fired = 0 then
    { st with fired := st.fired + 1 }
  else st

/-- Modelled from the spec: one decryption completing with sequence
index `idx` and payload `a` — put it into the pending-delivery set,
drain in index order, then check completion. -/
def insertCompleted {α : Type} (st : DecrypterPool α) (idx : Nat) (a : α) :
    DecrypterPool α :=
  poolFire (poolDrain (st.expected + 1)
    { st with pending := fun k => if k = idx then some a else st.pending k })

/-- Modelled from the spec: a session processing a list of completions
in the order the decryptions finish. -/
def runPool {α : Type} (st : DecrypterPool α) (completions : List (Nat × α)) :
    DecrypterPool α :=
  completions.foldl (fun s e => insertCompleted s e.1 e.2) st

/-- Invariant of a decrypter-pool session in which the processed
sequence indices so far are exactly the members of `P`, each completed
with payload `f` of its index. -/
def PoolInv {α : Type} (N : Nat) (f : Nat → α) (P : List Nat)
    (st : DecrypterPool α) : Prop :=
  st.expected = N ∧
  1 ≤ st.next ∧ st.next ≤ N + 1 ∧
  (∀ i, 1 ≤ i → i < st.next → i ∈ P) ∧
  st.next ∉ P ∧
  (∀ i ∈ P, 1 ≤ i ∧ i ≤ N) ∧
  (∀ k, st.pending k = if k ∈ P ∧ st.next ≤ k then some (f k) else none) ∧
  st.delivered = (List.range' 1 (st.next - 1)).map f ∧
  st.fired = (if st.next = N + 1 then 1 else 0)

/-! ### Parser-printer helper lemmas -/

theorem string_mk_data (s : String) : String.mk s.data = s := by cases s; rfl

theorem parseStrBody_quote (rest : List Char) :
    parseStrBody ('"' :: rest) = some ([], rest) := by
  rw [parseStrBody.eq_def]
  simp

theorem parseStrBody_esc (cs rest : List Char) :
    parseStrBody (cs.flatMap escChar ++ '"' :: rest) = some (cs, rest) := by
  induction cs with
  | nil => simp only [List.flatMap_nil, List.nil_append, parseStrBody_quote]
  | cons c cs ih =>
    rw [List.flatMap_cons, List.append_assoc]
    by_cases hq : c = '"'
    · subst hq
      have he : escChar '"' = ['\\', '"'] := rfl
      rw [he, parseStrBody.eq_def]
      simp only [List.cons_append]
      simp [ih]
    · by_cases hb : c = '\\'
      · subst hb
        have he : escChar '\\' = ['\\', '\\'] := rfl
        rw [he, parseStrBody.eq_def]
        simp only [List.cons_append]
        simp [ih]
      · have he : escChar c = [c] := by simp [escChar, hq, hb]
        rw [he, List.singleton_append, parseStrBody.eq_def]
        simp [hq, hb, ih]

theorem dumpStrL_append (v : String) (rest : List Char) :
    dumpStrL v ++ rest = '"' :: (v.data.flatMap escChar ++ '"' :: rest) := by
  simp [dumpStrL]

theorem parseVal_strLit (f : Nat) (v : String) (rest : List Char) :
    parseVal (f + 1) (dumpStrL v ++ rest) = some (.str v, rest) := by
  rw [dumpStrL_append, parseVal.eq_def]
  simp [skipWs, parseStrBody_esc, string_mk_data]

theorem parseVal_skipSpace (f : Nat) (cs : List Char) :
    parseVal f (' ' :: cs) = parseVal f cs := by
  cases f with
  | zero => rfl
  | succ f =>
    rw [parseVal.eq_def, parseVal.eq_def]
    simp [skipWs]

theorem parseMembers_single (f : Nat) (k v : String) (rest : List Char) :
    parseMembers (f + 2)
      (dumpStrL k ++ ':' :: ' ' :: (dumpStrL v ++ '\x7d' :: rest))
      = some (.obj [(k, .str v)], rest) := by
  rw [dumpStrL_append, parseMembers.eq_def]
  simp [parseStrBody_esc, skipWs, parseVal_skipSpace, parseVal_strLit, string_mk_data]

theorem parseMembers_pair (f : Nat) (k1 v1 k2 v2 : String) (rest : List Char) :
    parseMembers (f + 3)
      (dumpStrL k1 ++ ':' :: ' ' :: (dumpStrL v1 ++ ',' :: ' ' ::
        (dumpStrL k2 ++ ':' :: ' ' :: (dumpStrL v2 ++ '\x7d' :: rest))))
      = some (.obj [(k1, .str v1), (k2, .str v2)], rest) := by
  rw [dumpStrL_append k1, parseMembers.eq_def]
  simp [parseStrBody_esc, skipWs, parseVal_skipSpace, parseVal_strLit, string_mk_data]
  rw [← dumpStrL_append k2, parseMembers_single]

theorem parseVal_obj2 (f : Nat) (k1 v1 k2 v2 : String) (rest : List Char) :
    parseVal (f + 4)
      ('\x7b' :: (dumpStrL k1 ++ ':' :: ' ' :: (dumpStrL v1 ++ ',' :: ' ' ::
        (dumpStrL k2 ++ ':' :: ' ' :: (dumpStrL v2 ++ '\x7d' :: rest)))))
      = some (.obj [(k1, .str v1), (k2, .str v2)], rest) := by
  rw [parseVal.eq_def, dumpStrL_append k1]
  simp [skipWs]
  rw [← dumpStrL_append k1, parseMembers_pair]

theorem dumps_obj2_data (k1 v1 k2 v2 : String) :
    (dumps (.obj [(k1, .str v1), (k2, .str v2)])).data
      = '\x7b' :: (dumpStrL k1 ++ ':' :: ' ' :: (dumpStrL v1 ++ ',' :: ' ' ::
          (dumpStrL k2 ++ ':' :: ' ' :: (dumpStrL v2 ++ ['\x7d'])))) := by
  simp [dumps, dumpsMembers, dumpStr, String.data_append]

theorem dumpStrL_len (v : String) : 2 ≤ (dumpStrL v).length := by
  simp [dumpStrL]

/-- Printing a flat two-string-field object and reading it back returns
the object: the round trip behind the envelope codec. -/
theorem loads_dumps_obj2 (k1 v1 k2 v2 : String) :
    loads (dumps (.obj [(k1, .str v1), (k2, .str v2)]))
      = some (.obj [(k1, .str v1), (k2, .str v2)]) := by
  unfold loads loadsL
  rw [dumps_obj2_data]
  have h1 := dumpStrL_len k1
  have h2 := dumpStrL_len v1
  have hge : 3 ≤ ('\x7b' :: (dumpStrL k1 ++ ':' :: ' ' :: (dumpStrL v1 ++ ',' :: ' ' ::
      (dumpStrL k2 ++ ':' :: ' ' :: (dumpStrL v2 ++ ['\x7d']))))).length := by
    simp
    omega
  obtain ⟨f, hf⟩ : ∃ f : Nat, ('\x7b' :: (dumpStrL k1 ++ ':' :: ' ' :: (dumpStrL v1 ++ ',' :: ' ' ::
      (dumpStrL k2 ++ ':' :: ' ' :: (dumpStrL v2 ++ ['\x7d']))))).length + 1 = f + 4 :=
    ⟨('\x7b' :: (dumpStrL k1 ++ ':' :: ' ' :: (dumpStrL v1 ++ ',' :: ' ' ::
      (dumpStrL k2 ++ ':' :: ' ' :: (dumpStrL v2 ++ ['\x7d']))))).length - 3, by omega⟩
  rw [hf, parseVal_obj2]
  rfl

theorem dumps_obj2_ne_empty (k1 v1 k2 v2 : String) :
    dumps (.obj [(k1, .str v1), (k2, .str v2)]) ≠ "" := by
  intro h
  have hd := dumps_obj2_data k1 v1 k2 v2
  rw [h] at hd
  exact absurd hd.symm (List.cons_ne_nil _ _)

theorem jEq_str (a b : String) : jEq (.str a) (.str b) = (a == b) := by
  rw [jEq.eq_def]

theorem getItemE_env2_fst (k1 k2 : String) (v1 v2 : Json) (hne : k2 ≠ k1) :
    getItemE (.obj [(k1, v1), (k2, v2)]) k1 = .ok v1 := by
  simp [getItemE, jLookup, hne]

theorem getItemE_env2_snd (k1 k2 : String) (v1 v2 : Json) :
    getItemE (.obj [(k1, v1), (k2, v2)]) k2 = .ok v2 := by
  simp [getItemE, jLookup]

/-! ### Claims about the envelope codec -/

/-- Claim C1: for every plaintext JSON string `p` and non-empty document
id `d`, decrypting the envelope produced by encrypting `p` under `d`
yields `p` again, assuming the crypto collaborator's `decrypt_sym`
inverts `encrypt_sym` under the `passphrase_hash d` key and its
`is_encrypted_sym` accepts its own ciphertexts. -/
theorem encrypt_decrypt_roundtrip (crypto : SoledadCrypto) (d p : String)
    (hd : d ≠ "")
    (hdet : crypto.is_encrypted_sym (crypto.encrypt_sym p (crypto.passphrase_hash d)) = true)
    (hinv : crypto.decrypt_sym (crypto.encrypt_sym p (crypto.passphrase_hash d))
      (crypto.passphrase_hash d) = p) :
    (encrypt_doc_json crypto d p).bind (fun env => decrypt_doc_json crypto d env)
      = .ok p := by
  unfold encrypt_doc_json
  simp only [hdet, Bool.true_eq_false, if_false]
  show decrypt_doc_json crypto d
    (dumps (.obj [("_encrypted_json", .str (crypto.encrypt_sym p (crypto.passphrase_hash d))),
      ("_encryption_scheme", .str "symkey")])) = .ok p
  unfold decrypt_doc_json
  rw [if_neg hd, if_neg (dumps_obj2_ne_empty _ _ _ _), loads_dumps_obj2]
  simp only [getItemE_env2_fst _ _ _ _
      (show ("_encryption_scheme" : String) ≠ "_encrypted_json" by decide),
    getItemE_env2_snd, jEq_str]
  simp [hdet, hinv]

/-- Claim C1 witness. -/
theorem encrypt_decrypt_roundtrip_witness :
    (encrypt_doc_json demoCrypto "doc1" "\x7b\"a\": 1\x7d").bind
      (fun env => decrypt_doc_json demoCrypto "doc1" env)
      = .ok "\x7b\"a\": 1\x7d" :=
  encrypt_decrypt_roundtrip demoCrypto "doc1" "\x7b\"a\": 1\x7d"
    (by decide) rfl (by decide)

/-- Claim C2 (refuted as stated; the code has a slip): for an envelope
whose `_encryption_scheme` is any string other than `symkey`,
`decrypt_doc_json` does NOT raise the module's
`UnknownEncryptionSchemes` error: the `raise` line names the undefined
identifier `UnknownEncryptionScheme`, so the call fails with `NameError`
instead. -/
theorem decrypt_unknown_scheme_nameerror (crypto : SoledadCrypto)
    (doc_id doc_json : String) (content ciphertext : Json) (sch : String)
    (hid : doc_id ≠ "") (hj : doc_json ≠ "")
    (hload : loads doc_json = some content)
    (hct : getItemE content "_encrypted_json" = .ok ciphertext)
    (hsch : getItemE content "_encryption_scheme" = .ok (.str sch))
    (hne : sch ≠ "symkey") :
    decrypt_doc_json crypto doc_id doc_json
      = .error (.nameError "UnknownEncryptionScheme") := by
  unfold decrypt_doc_json
  rw [if_neg hid, if_neg hj, hload]
  simp only [hct, hsch, jEq_str]
  simp [hne]

/-- Claim C2 witness: the concrete failing input, an envelope marked
with scheme `none`. -/
theorem decrypt_unknown_scheme_nameerror_witness :
    decrypt_doc_json demoCrypto "doc1"
      "\x7b\"_encrypted_json\": \"x\", \"_encryption_scheme\": \"none\"\x7d"
      = .error (.nameError "UnknownEncryptionScheme") :=
  decrypt_unknown_scheme_nameerror demoCrypto "doc1"
    "\x7b\"_encrypted_json\": \"x\", \"_encryption_scheme\": \"none\"\x7d"
    (.obj [("_encrypted_json", .str "x"), ("_encryption_scheme", .str "none")])
    (.str "x") "none" (by decide) (by decide) rfl rfl rfl (by decide)

/-- Claim C3: an envelope whose scheme tag claims `symkey` but whose
ciphertext the crypto layer's detector rejects fails with the
`DocumentNotEncrypted` error, whatever `decrypt_sym` would have
returned (the conclusion holds for every collaborator with that
detector verdict, so no decryption is consulted). -/
theorem decrypt_symkey_unrecognized (crypto : SoledadCrypto)
    (doc_id doc_json : String) (content : Json) (ct : String)
    (hid : doc_id ≠ "") (hj : doc_json ≠ "")
    (hload : loads doc_json = some content)
    (hct : getItemE content "_encrypted_json" = .ok (.str ct))
    (hsch : getItemE content "_encryption_scheme" = .ok (.str "symkey"))
    (hdet : crypto.is_encrypted_sym ct = false) :
    decrypt_doc_json crypto doc_id doc_json
      = .error (.documentNotEncrypted notEncryptedIncomingMsg) := by
  unfold decrypt_doc_json
  rw [if_neg hid, if_neg hj, hload]
  simp only [hct, hsch, jEq_str]
  simp [hdet]

/-- Claim C3 witness: `demoRejectCrypto` rejects every ciphertext. -/
theorem decrypt_symkey_unrecognized_witness :
    decrypt_doc_json
      ⟨fun p k => k ++ p, fun c k => c.drop k.length, fun _ => false, fun d => d⟩
      "doc1" "\x7b\"_encrypted_json\": \"x\", \"_encryption_scheme\": \"symkey\"\x7d"
      = .error (.documentNotEncrypted notEncryptedIncomingMsg) :=
  decrypt_symkey_unrecognized
    ⟨fun p k => k ++ p, fun c k => c.drop k.length, fun _ => false, fun d => d⟩
    "doc1" "\x7b\"_encrypted_json\": \"x\", \"_encryption_scheme\": \"symkey\"\x7d"
    (.obj [("_encrypted_json", .str "x"), ("_encryption_scheme", .str "symkey")])
    "x" (by decide) (by decide) rfl rfl rfl rfl

/-- Claim C9: an empty `doc_id` or an empty `doc_json` fails the
`leap_assert` preconditions of `decrypt_doc_json` with an assertion
error, before any parsing and regardless of the argument contents (the
`isinstance(_, str)` halves of the asserts hold by typing in this
embedding). -/
theorem decrypt_empty_args_assert (crypto : SoledadCrypto)
    (doc_id doc_json : String) (h : doc_id = "" ∨ doc_json = "") :
    decrypt_doc_json crypto doc_id doc_json = .error .assertionError := by
  rcases h with h | h
  · simp [decrypt_doc_json, h]
  · by_cases hd : doc_id = ""
    · simp [decrypt_doc_json, hd]
    · simp [decrypt_doc_json, hd, h]

/-- Claim C9 witness: an empty `doc_json` that would otherwise be a
scheme error is an assertion error first. -/
theorem decrypt_empty_args_assert_witness :
    decrypt_doc_json demoCrypto "doc1" "" = .error .assertionError :=
  decrypt_empty_args_assert demoCrypto "doc1" "" (Or.inr rfl)

/-! ### Claims about the outgoing stream -/

theorem encrypt_doc_json_ok (crypto : SoledadCrypto) (doc_id doc_json : String)
    (hdet : ∀ p k, crypto.is_encrypted_sym (crypto.encrypt_sym p k) = true) :
    encrypt_doc_json crypto doc_id doc_json
      = .ok (encEnvelope crypto doc_id doc_json) := by
  unfold encrypt_doc_json encEnvelope
  simp [hdet]

theorem syncEntriesLoop_shape (crypto : SoledadCrypto)
    (hdet : ∀ p k, crypto.is_encrypted_sym (crypto.encrypt_sym p k) = true) :
    ∀ (docs : List (LeapDocument × Int × String)) (acc : List String),
      syncEntriesLoop crypto docs acc
        = .ok (acc ++ (docs.filter (fun x => x.1.syncable)).map (mkDocLine crypto))
  | [], acc => by simp [syncEntriesLoop]
  | (doc, gen, tid) :: restDocs, acc => by
    rw [syncEntriesLoop]
    by_cases hs : doc.syncable
    · rw [if_neg (by simp [hs])]
      cases hj : doc.json_ with
      | none =>
        rw [syncEntriesLoop_shape crypto hdet restDocs]
        simp [List.filter_cons, hs, mkDocLine, hj, LeapDocument.get_json, jsonOfOptStr]
      | some j =>
        simp only [encrypt_doc_json_ok crypto doc.doc_id j hdet]
        rw [syncEntriesLoop_shape crypto hdet restDocs]
        simp [List.filter_cons, hs, mkDocLine, hj]
    · rw [if_pos (by simpa using hs)]
      rw [syncEntriesLoop_shape crypto hdet restDocs]
      simp [List.filter_cons, hs]

/-- Claim C6: the outgoing stream built by `sync_exchange` is the `[`
chunk, the metadata line, one entry line per syncable document in input
order, and the closing chunk; a document with `syncable = false`
contributes nothing. -/
theorem sync_outgoing_skips_nonsyncable (crypto : SoledadCrypto)
    (docs : List (LeapDocument × Int × String)) (g : Int) (t : String) (e : Bool)
    (hdet : ∀ p k, crypto.is_encrypted_sym (crypto.encrypt_sym p k) = true) :
    syncEntries crypto docs g t e
      = .ok ("[" :: metaLine g t e ::
          ((docs.filter (fun x => x.1.syncable)).map (mkDocLine crypto) ++ ["\r\n]"])) := by
  unfold syncEntries
  rw [syncEntriesLoop_shape crypto hdet docs]
  simp

/-- Claim C6 witness: one syncable and one non-syncable document. -/
theorem sync_outgoing_skips_nonsyncable_witness :
    syncEntries demoCrypto
      [(⟨"a", some "1", some "\x7b\x7d", false, true⟩, 1, "t1"),
       (⟨"b", some "2", some "\x7b\x7d", false, false⟩, 2, "t2")] 0 "T" false
      = .ok ["[", metaLine 0 "T" false,
          mkDocLine demoCrypto (⟨"a", some "1", some "\x7b\x7d", false, true⟩, 1, "t1"),
          "\r\n]"] := by
  rw [sync_outgoing_skips_nonsyncable demoCrypto _ 0 "T" false (fun _ _ => rfl)]
  rfl

/-- Claim C7: every syncable document written to the outgoing stream is
written as one entry line whose `content` field is the document's
`get_json()` untouched when it is a tombstone, and the envelope
produced by `encrypt_doc_json` on the document's id and JSON
otherwise. -/
theorem sync_outgoing_content (crypto : SoledadCrypto)
    (docs : List (LeapDocument × Int × String)) (g : Int) (t : String) (e : Bool)
    (d : LeapDocument) (gen : Int) (tid : String)
    (hdet : ∀ p k, crypto.is_encrypted_sym (crypto.encrypt_sym p k) = true)
    (hmem : (d, gen, tid) ∈ docs) (hsync : d.syncable = true) :
    ∃ lines, syncEntries crypto docs g t e = .ok lines ∧
      mkDocLine crypto (d, gen, tid) ∈ lines ∧
      (d.is_tombstone = true →
        mkDocLine crypto (d, gen, tid) = docLine d gen tid (jsonOfOptStr d.get_json)) ∧
      (d.is_tombstone = false →
        ∃ j env, d.get_json = some j ∧
          encrypt_doc_json crypto d.doc_id j = .ok env ∧
          mkDocLine crypto (d, gen, tid) = docLine d gen tid (.str env)) := by
  refine ⟨_, sync_outgoing_skips_nonsyncable crypto docs g t e hdet, ?_, ?_, ?_⟩
  · have hf : (d, gen, tid) ∈ docs.filter (fun x => x.1.syncable) := by
      rw [List.mem_filter]
      exact ⟨hmem, hsync⟩
    have hmap := List.mem_map_of_mem (mkDocLine crypto) hf
    exact List.mem_cons_of_mem _ (List.mem_cons_of_mem _ (List.mem_append_left _ hmap))
  · intro ht
    unfold mkDocLine LeapDocument.get_json
    have hj : d.json_ = none := by
      unfold LeapDocument.is_tombstone at ht
      exact Option.isNone_iff_eq_none.mp ht
    rw [hj]
    rfl
  · intro ht
    have hj : ∃ j, d.json_ = some j := by
      unfold LeapDocument.is_tombstone at ht
      cases hc : d.json_ with
      | none => rw [hc] at ht; simp at ht
      | some j => exact ⟨j, rfl⟩
    obtain ⟨j, hj⟩ := hj
    refine ⟨j, encEnvelope crypto d.doc_id j, by simp [LeapDocument.get_json, hj],
      encrypt_doc_json_ok crypto _ _ hdet, ?_⟩
    unfold mkDocLine
    rw [hj]

/-- Claim C7 witness: a tombstone and an ordinary document, both written
as the claim describes. -/
theorem sync_outgoing_content_witness :
    (∃ lines, syncEntries demoCrypto
        [(⟨"a", some "1", none, false, true⟩, 1, "t1")] 0 "T" false = .ok lines ∧
      mkDocLine demoCrypto (⟨"a", some "1", none, false, true⟩, 1, "t1") ∈ lines ∧
      ((⟨"a", some "1", none, false, true⟩ : LeapDocument).is_tombstone = true →
        mkDocLine demoCrypto (⟨"a", some "1", none, false, true⟩, 1, "t1")
          = docLine ⟨"a", some "1", none, false, true⟩ 1 "t1"
              (jsonOfOptStr (⟨"a", some "1", none, false, true⟩ : LeapDocument).get_json)) ∧
      ((⟨"a", some "1", none, false, true⟩ : LeapDocument).is_tombstone = false →
        ∃ j env, (⟨"a", some "1", none, false, true⟩ : LeapDocument).get_json = some j ∧
          encrypt_doc_json demoCrypto "a" j = .ok env ∧
          mkDocLine demoCrypto (⟨"a", some "1", none, false, true⟩, 1, "t1")
            = docLine ⟨"a", some "1", none, false, true⟩ 1 "t1" (.str env))) :=
  sync_outgoing_content demoCrypto
    [(⟨"a", some "1", none, false, true⟩, 1, "t1")] 0 "T" false
    ⟨"a", some "1", none, false, true⟩ 1 "t1"
    (fun _ _ => rfl) (by simp) rfl

/-! ### Claims about the incoming stream -/

/-- Claim C10: a document entry whose content is an envelope tagged with
any `_encryption_scheme` other than `symkey` is delivered to the
callback with its content string passed through unchanged and no error
raised; the conclusion holds for every crypto collaborator, so no
decryption is attempted. -/
theorem parse_stream_foreign_scheme_passthrough
    (crypto : SoledadCrypto) (errorOf : Json → Option SyncErr)
    (data m e1 line1 line2 : String) (mJ : Json)
    (i r s : String) (g t : Json) (c : Json)
    (hsplit : splitlines data = ["[", m, e1, "]"])
    (hm : check_and_strip_comma m = (line1, true))
    (hload : loads line1 = some mJ)
    (he : check_and_strip_comma e1 = (line2, false))
    (hloadE : loads line2 = some (.obj [("id", .str i), ("rev", .str r),
      ("content", .str s), ("gen", g), ("trans_id", t)]))
    (hloadC : loads s = some c)
    (htr : jsonTruthy c = true)
    (hkey : jsonHasKey c "_encryption_scheme" = true)
    (hsch : jEq (jsonGetD c "_encryption_scheme") (.str "symkey") = false) :
    parseSyncStream crypto errorOf false data
      = ⟨[], [(⟨i, some r, some s, false, true⟩, g, t)], .ok mJ⟩ := by
  unfold parseSyncStream
  rw [hsplit]
  simp only [List.getLast?, List.dropLast]
  rw [hm]
  simp only [hload]
  simp [parseLoop, processEntry, decryptIfNeeded, getItemE, jLookup, optStrOfJson,
    he, hloadE, hloadC, htr, hkey, hsch]

set_option maxRecDepth 8192 in
/-- Claim C10 witness: a pubkey-tagged envelope rides through untouched. -/
theorem parse_stream_foreign_scheme_passthrough_witness :
    parseSyncStream demoCrypto (fun _ => none) false
      ("[\r\n\x7b\x7d,\r\n" ++
        ("\x7b\"id\": \"d1\", \"rev\": \"r1\", \"content\": " ++
          dumpStr "\x7b\"_encrypted_json\": \"x\", \"_encryption_scheme\": \"pubkey\"\x7d" ++
          ", \"gen\": 1, \"trans_id\": \"t1\"\x7d") ++ "\r\n]")
      = ⟨[], [(⟨"d1", some "r1",
          some "\x7b\"_encrypted_json\": \"x\", \"_encryption_scheme\": \"pubkey\"\x7d",
          false, true⟩, .num 1, .str "t1")], .ok (.obj [])⟩ :=
  parse_stream_foreign_scheme_passthrough demoCrypto (fun _ => none)
    ("[\r\n\x7b\x7d,\r\n" ++
        ("\x7b\"id\": \"d1\", \"rev\": \"r1\", \"content\": " ++
          dumpStr "\x7b\"_encrypted_json\": \"x\", \"_encryption_scheme\": \"pubkey\"\x7d" ++
          ", \"gen\": 1, \"trans_id\": \"t1\"\x7d") ++ "\r\n]")
    "\x7b\x7d," 
    ("\x7b\"id\": \"d1\", \"rev\": \"r1\", \"content\": " ++
      dumpStr "\x7b\"_encrypted_json\": \"x\", \"_encryption_scheme\": \"pubkey\"\x7d" ++
      ", \"gen\": 1, \"trans_id\": \"t1\"\x7d")
    "\x7b\x7d"
    ("\x7b\"id\": \"d1\", \"rev\": \"r1\", \"content\": " ++
      dumpStr "\x7b\"_encrypted_json\": \"x\", \"_encryption_scheme\": \"pubkey\"\x7d" ++
      ", \"gen\": 1, \"trans_id\": \"t1\"\x7d")
    (.obj []) "d1" "r1"
    "\x7b\"_encrypted_json\": \"x\", \"_encryption_scheme\": \"pubkey\"\x7d"
    (.num 1) (.str "t1")
    (.obj [("_encrypted_json", .str "x"), ("_encryption_scheme", .str "pubkey")])
    rfl rfl rfl rfl rfl rfl rfl rfl rfl

/-- Claim C5: when the final line of an otherwise well-formed response
stream is not `]` but parses as a JSON object whose payload the
inherited `_error` hook maps to an error, `_parse_sync_stream` fails
with exactly that error (the hook receives the parsed dict), and
`sync_exchange` propagates a failure — it never returns a
generation/transaction pair: whatever happens to the outgoing build it
returns an error, and that error is the payload's whenever the outgoing
build succeeds. -/
theorem parse_stream_error_payload (crypto : SoledadCrypto)
    (errorOf : Json → Option SyncErr) (data m line1 last : String)
    (ds : List String) (comma : Bool) (mJ : Json) (kvs : List (String × Json))
    (acc : List (LeapDocument × Json × Json)) (commaF : Bool) (err : SyncErr)
    (hsplit : splitlines data = "[" :: ((m :: ds) ++ [last]))
    (hm : check_and_strip_comma m = (line1, comma))
    (hload : loads line1 = some mJ)
    (hloop : parseLoop crypto ds comma [] = (acc, commaF, none))
    (hlast : last ≠ "]")
    (hdict : loads last = some (.obj kvs))
    (herr : errorOf (.obj kvs) = some err) :
    parseSyncStream crypto errorOf false data = ⟨[], acc, .error err⟩ ∧
    (∀ docs lastGen lastTid, ∃ e,
      sync_exchange crypto errorOf docs lastGen lastTid false data = .error e) ∧
    (∀ docs lastGen lastTid body,
      syncEntries crypto docs lastGen lastTid false = .ok body →
      sync_exchange crypto errorOf docs lastGen lastTid false data = .error err) := by
  have hmid2 : ((m :: ds) ++ [last]).dropLast = m :: ds := List.dropLast_concat
  have hmid3 : ((m :: ds) ++ [last]).getLast? = some last := List.getLast?_concat _
  have hparse : parseSyncStream crypto errorOf false data = ⟨[], acc, .error err⟩ := by
    unfold parseSyncStream
    rw [hsplit]
    simp only [hmid2, hmid3, Option.getD_some]
    simp only [hm, hload, hloop]
    simp [hlast, lastLineError, hdict, herr]
  refine ⟨hparse, ?_, ?_⟩
  · intro docs lastGen lastTid
    unfold sync_exchange
    cases hs : syncEntries crypto docs lastGen lastTid false with
    | error e => exact ⟨e, rfl⟩
    | ok body =>
      refine ⟨err, ?_⟩
      rw [hparse]
  · intro docs lastGen lastTid body hs
    unfold sync_exchange
    rw [hs, hparse]

set_option maxRecDepth 8192 in
/-- Claim C5 witness: a recognized error payload in place of the closing
bracket fails the parse and the exchange with that payload's error. -/
theorem parse_stream_error_payload_witness :
    parseSyncStream demoCrypto recognizingError false
      "[\r\n\x7b\x7d\r\n\x7b\"error\": \"unavailable\"\x7d"
      = ⟨[], [], .error (.wireError (.obj [("error", .str "unavailable")]))⟩ ∧
    sync_exchange demoCrypto recognizingError [] 0 "" false
      "[\r\n\x7b\x7d\r\n\x7b\"error\": \"unavailable\"\x7d"
      = .error (.wireError (.obj [("error", .str "unavailable")])) := by
  have h := parse_stream_error_payload demoCrypto recognizingError
    "[\r\n\x7b\x7d\r\n\x7b\"error\": \"unavailable\"\x7d"
    "\x7b\x7d" "\x7b\x7d" "\x7b\"error\": \"unavailable\"\x7d"
    [] false (.obj []) [("error", .str "unavailable")] [] false
    (.wireError (.obj [("error", .str "unavailable")]))
    rfl rfl rfl rfl (by decide) rfl rfl
  exact ⟨h.1, h.2.2 [] 0 "" ["[", metaLine 0 "" false, "\r\n]"] rfl⟩

/-- Claim C4 (amended): the framing violations each abort the parse with
`BrokenSyncStream` and deliver no document past the violation point —
(a) first line missing or not `[`; (b) no data lines between the
sentinels; (c) a missing separating comma right after the metadata
line; (d) a missing separating comma after a document entry (the entry
before the violation is the only one delivered); (e) a trailing comma
on the final data line — while (f) a missing closing `]` aborts with
`BrokenSyncStream` unless the final line parses as a JSON object that
the inherited `_error` hook recognizes, in which case the hook's wire
error is raised instead (the amendment; still nothing delivered past
the violation and no result returned). -/
theorem parse_stream_framing_errors (crypto : SoledadCrypto)
    (errorOf : Json → Option SyncErr) :
    (∀ data, (splitlines data).head? ≠ some "[" →
      parseSyncStream crypto errorOf false data = ⟨[], [], .error .brokenSyncStream⟩) ∧
    (∀ data, splitlines data = ["[", "]"] →
      parseSyncStream crypto errorOf false data = ⟨[], [], .error .brokenSyncStream⟩) ∧
    (∀ data m l2 more last line1,
      splitlines data = "[" :: ((m :: l2 :: more) ++ [last]) →
      check_and_strip_comma m = (line1, false) → (loads line1).isSome →
      parseSyncStream crypto errorOf false data = ⟨[], [], .error .brokenSyncStream⟩) ∧
    (∀ data m e1 l2 more last l1 line1 (i r : String) (g t : Json),
      splitlines data = "[" :: ((m :: e1 :: l2 :: more) ++ [last]) →
      check_and_strip_comma m = (l1, true) → (loads l1).isSome →
      check_and_strip_comma e1 = (line1, false) →
      loads line1 = some (.obj [("id", .str i), ("rev", .str r),
        ("content", .null), ("gen", g), ("trans_id", t)]) →
      parseSyncStream crypto errorOf false data
        = ⟨[], [(⟨i, some r, none, false, true⟩, g, t)], .error .brokenSyncStream⟩) ∧
    (∀ data m e1 l1 line1 (i r : String) (g t : Json),
      splitlines data = ["[", m, e1, "]"] →
      check_and_strip_comma m = (l1, true) → (loads l1).isSome →
      check_and_strip_comma e1 = (line1, true) →
      loads line1 = some (.obj [("id", .str i), ("rev", .str r),
        ("content", .null), ("gen", g), ("trans_id", t)]) →
      parseSyncStream crypto errorOf false data
        = ⟨[], [(⟨i, some r, none, false, true⟩, g, t)], .error .brokenSyncStream⟩) ∧
    (∀ data m line1 last, splitlines data = ["[", m, last] →
      check_and_strip_comma m = (line1, false) → (loads line1).isSome →
      last ≠ "]" →
      parseSyncStream crypto errorOf false data
          = ⟨[], [], .error (lastLineError errorOf last)⟩ ∧
        (lastLineError errorOf last = .brokenSyncStream ∨
          ∃ kvs, loads last = some (.obj kvs) ∧
            errorOf (.obj kvs) = some (lastLineError errorOf last))) := by
  refine ⟨?_, ?_, ?_, ?_, ?_, ?_⟩
  · intro data hhead
    cases hd : splitlines data with
    | nil => unfold parseSyncStream; rw [hd]
    | cons first rest =>
      have hf : first ≠ "[" := by
        intro h
        rw [hd, h] at hhead
        exact hhead rfl
      unfold parseSyncStream
      rw [hd]
      simp [hf]
  · intro data hd
    unfold parseSyncStream
    rw [hd]
    rfl
  · intro data m l2 more last line1 hsplit hm hsome
    obtain ⟨mJ, hmJ⟩ := Option.isSome_iff_exists.mp hsome
    have hmid2 : ((m :: l2 :: more) ++ [last]).dropLast = m :: l2 :: more :=
      List.dropLast_concat
    have hmid3 : ((m :: l2 :: more) ++ [last]).getLast? = some last :=
      List.getLast?_concat _
    unfold parseSyncStream
    rw [hsplit]
    simp only [hmid2, hmid3, Option.getD_some]
    simp only [hm, hmJ]
    simp [parseLoop]
  · intro data m e1 l2 more last l1 line1 i r g t hsplit hm hsome he he2
    obtain ⟨mJ, hmJ⟩ := Option.isSome_iff_exists.mp hsome
    have hmid2 : ((m :: e1 :: l2 :: more) ++ [last]).dropLast = m :: e1 :: l2 :: more :=
      List.dropLast_concat
    have hmid3 : ((m :: e1 :: l2 :: more) ++ [last]).getLast? = some last :=
      List.getLast?_concat _
    unfold parseSyncStream
    rw [hsplit]
    simp only [hmid2, hmid3, Option.getD_some]
    simp only [hm, hmJ]
    simp [parseLoop, processEntry, decryptIfNeeded, getItemE, jLookup, optStrOfJson,
      he, he2]
  · intro data m e1 l1 line1 i r g t hsplit hm hsome he he2
    obtain ⟨mJ, hmJ⟩ := Option.isSome_iff_exists.mp hsome
    unfold parseSyncStream
    rw [hsplit]
    simp only [List.getLast?, List.dropLast]
    simp only [hm, hmJ]
    simp [parseLoop, processEntry, decryptIfNeeded, getItemE, jLookup, optStrOfJson,
      he, he2]
  · intro data m line1 last hsplit hm hsome hlast
    obtain ⟨mJ, hmJ⟩ := Option.isSome_iff_exists.mp hsome
    constructor
    · unfold parseSyncStream
      rw [hsplit]
      simp only [List.getLast?, List.dropLast]
      simp only [hm, hmJ]
      simp [parseLoop, hlast]
    · unfold lastLineError
      cases hl : loads last with
      | none => exact Or.inl rfl
      | some j =>
        cases j with
        | obj kvs =>
          cases herr : errorOf (.obj kvs) with
          | none => exact Or.inl (by simp [herr])
          | some e => exact Or.inr ⟨kvs, rfl, by simp [herr]⟩
        | null => exact Or.inl rfl
        | bool b => exact Or.inl rfl
        | num n => exact Or.inl rfl
        | str s => exact Or.inl rfl
        | arr items => exact Or.inl rfl

set_option maxRecDepth 8192 in
/-- Claim C4 counterexample to the claim as stated: a response body
whose last line is not `]` need not raise `BrokenSyncStream` — when the
final line parses as a JSON object carrying a payload the inherited
`_error` hook recognizes, the hook's wire error is raised instead. -/
theorem parse_stream_framing_errors_cex :
    parseSyncStream demoCrypto recognizingError false
      "[\r\n\x7b\x7d\r\n\x7b\"error\": \"unavailable\"\x7d"
      = ⟨[], [], .error (.wireError (.obj [("error", .str "unavailable")]))⟩ ∧
    SyncErr.wireError (.obj [("error", .str "unavailable")])
      ≠ SyncErr.brokenSyncStream := by
  exact ⟨rfl, fun h => nomatch h⟩

set_option maxRecDepth 8192 in
/-- Claim C4 witness: concrete streams for each violation family of the
amended claim. -/
theorem parse_stream_framing_errors_witness :
    parseSyncStream demoCrypto recognizingError false "nope"
      = ⟨[], [], .error .brokenSyncStream⟩ ∧
    parseSyncStream demoCrypto recognizingError false "[\r\n]"
      = ⟨[], [], .error .brokenSyncStream⟩ ∧
    parseSyncStream demoCrypto recognizingError false "[\r\n\x7b\x7d\r\n\x7b\x7d\r\n]"
      = ⟨[], [], .error .brokenSyncStream⟩ ∧
    parseSyncStream demoCrypto recognizingError false
      ("[\r\n\x7b\x7d,\r\n" ++
        "\x7b\"id\": \"d\", \"rev\": \"r\", \"content\": null, \"gen\": 1, \"trans_id\": \"t\"\x7d" ++
        "\r\n\x7b\x7d\r\n]")
      = ⟨[], [(⟨"d", some "r", none, false, true⟩, .num 1, .str "t")],
          .error .brokenSyncStream⟩ ∧
    parseSyncStream demoCrypto recognizingError false
      ("[\r\n\x7b\x7d,\r\n" ++
        "\x7b\"id\": \"d\", \"rev\": \"r\", \"content\": null, \"gen\": 1, \"trans_id\": \"t\"\x7d" ++
        ",\r\n]")
      = ⟨[], [(⟨"d", some "r", none, false, true⟩, .num 1, .str "t")],
          .error .brokenSyncStream⟩ ∧
    (parseSyncStream demoCrypto recognizingError false "[\r\n\x7b\x7d\r\nnope"
        = ⟨[], [], .error (lastLineError recognizingError "nope")⟩ ∧
      (lastLineError recognizingError "nope" = .brokenSyncStream ∨
        ∃ kvs, loads "nope" = some (.obj kvs) ∧
          recognizingError (.obj kvs) = some (lastLineError recognizingError "nope"))) := by
  have h := parse_stream_framing_errors demoCrypto recognizingError
  refine ⟨?_, ?_, ?_, ?_, ?_, ?_⟩
  · exact h.1 "nope" (by decide)
  · exact h.2.1 "[\r\n]" rfl
  · exact h.2.2.1 "[\r\n\x7b\x7d\r\n\x7b\x7d\r\n]" "\x7b\x7d" "\x7b\x7d" [] "]" "\x7b\x7d"
      rfl rfl (by decide)
  · exact h.2.2.2.1
      ("[\r\n\x7b\x7d,\r\n" ++
        "\x7b\"id\": \"d\", \"rev\": \"r\", \"content\": null, \"gen\": 1, \"trans_id\": \"t\"\x7d" ++
        "\r\n\x7b\x7d\r\n]")
      "\x7b\x7d,"
      "\x7b\"id\": \"d\", \"rev\": \"r\", \"content\": null, \"gen\": 1, \"trans_id\": \"t\"\x7d"
      "\x7b\x7d" [] "]" "\x7b\x7d"
      "\x7b\"id\": \"d\", \"rev\": \"r\", \"content\": null, \"gen\": 1, \"trans_id\": \"t\"\x7d"
      "d" "r" (.num 1) (.str "t")
      rfl rfl (by decide) rfl rfl
  · exact h.2.2.2.2.1
      ("[\r\n\x7b\x7d,\r\n" ++
        "\x7b\"id\": \"d\", \"rev\": \"r\", \"content\": null, \"gen\": 1, \"trans_id\": \"t\"\x7d" ++
        ",\r\n]")
      "\x7b\x7d,"
      ("\x7b\"id\": \"d\", \"rev\": \"r\", \"content\": null, \"gen\": 1, \"trans_id\": \"t\"\x7d" ++ ",")
      "\x7b\x7d"
      "\x7b\"id\": \"d\", \"rev\": \"r\", \"content\": null, \"gen\": 1, \"trans_id\": \"t\"\x7d"
      "d" "r" (.num 1) (.str "t")
      rfl rfl (by decide) rfl rfl
  · exact h.2.2.2.2.2 "[\r\n\x7b\x7d\r\nnope" "\x7b\x7d" "\x7b\x7d" "nope"
      rfl rfl (by decide) (by decide)

/-! ### Claims about the decrypter pool -/

theorem poolDrain_inv {α : Type} (f : Nat → α) :
    ∀ (fuel : Nat) (st : DecrypterPool α) (P : List Nat),
      (∀ k, st.pending k = if k ∈ P ∧ st.next ≤ k then some (f k) else none) →
      st.delivered = (List.range' 1 (st.next - 1)).map f →
      1 ≤ st.next →
      (∀ i, 1 ≤ i → i < st.next → i ∈ P) →
      (∃ g, st.next ≤ g ∧ g < st.next + fuel ∧ g ∉ P) →
      ∃ next', poolDrain fuel st =
        { expected := st.expected, next := next',
          pending := fun k => if k ∈ P ∧ next' ≤ k then some (f k) else none,
          delivered := (List.range' 1 (next' - 1)).map f,
          fired := st.fired } ∧
        st.next ≤ next' ∧ next' ∉ P ∧ (∀ i, 1 ≤ i → i < next' → i ∈ P) := by
  intro fuel
  induction fuel with
  | zero =>
    intro st P hpend hdel hone hlow hgap
    obtain ⟨g, hg1, hg2, _⟩ := hgap
    omega
  | succ fuel ih =>
    intro st P hpend hdel hone hlow hgap
    by_cases hn : st.next ∈ P
    · have hpn : st.pending st.next = some (f st.next) := by
        rw [hpend]
        simp [hn]
      have hstep : poolDrain (fuel + 1) st =
          poolDrain fuel
            { st with
              next := st.next + 1
              pending := fun k => if k = st.next then none else st.pending k
              delivered := st.delivered ++ [f st.next] } := by
        rw [poolDrain, hpn]
      rw [hstep]
      have hpend2 : ∀ k,
          (fun k => if k = st.next then none else st.pending k) k
            = if k ∈ P ∧ st.next + 1 ≤ k then some (f k) else none := by
        intro k
        by_cases hk : k = st.next
        · simp [hk]
        · simp only [hk, if_false]
          rw [hpend]
          by_cases hkP : k ∈ P
          · by_cases hklt : st.next ≤ k
            · have h1 : st.next + 1 ≤ k := by omega
              simp [hkP, hklt, h1]
            · have h1 : ¬ st.next + 1 ≤ k := by omega
              simp [hkP, hklt, h1]
          · simp [hkP]
      have hdel2 : st.delivered ++ [f st.next]
          = (List.range' 1 (st.next + 1 - 1)).map f := by
        rw [hdel]
        have h1 : st.next + 1 - 1 = (st.next - 1) + 1 := by omega
        rw [h1, List.range'_1_concat, List.map_append]
        have h2 : 1 + (st.next - 1) = st.next := by omega
        rw [h2]
        rfl
      have hlow2 : ∀ i, 1 ≤ i → i < st.next + 1 → i ∈ P := by
        intro i h1 h2
        by_cases hi : i = st.next
        · rw [hi]; exact hn
        · exact hlow i h1 (by omega)
      have hgap2 : ∃ g, st.next + 1 ≤ g ∧ g < st.next + 1 + fuel ∧ g ∉ P := by
        obtain ⟨g, hg1, hg2, hg3⟩ := hgap
        have hgne : g ≠ st.next := fun h => hg3 (h ▸ hn)
        exact ⟨g, by omega, by omega, hg3⟩
      obtain ⟨next', heq, hge, hnP, hlow'⟩ :=
        ih { st with
              next := st.next + 1
              pending := fun k => if k = st.next then none else st.pending k
              delivered := st.delivered ++ [f st.next] }
          P hpend2 hdel2 (Nat.le_add_left 1 st.next) hlow2 hgap2
      exact ⟨next', heq, le_trans (Nat.le_succ st.next) hge, hnP, hlow'⟩
    · have hpn : st.pending st.next = none := by
        rw [hpend]
        simp [hn]
      have hstep : poolDrain (fuel + 1) st = st := by
        rw [poolDrain, hpn]
      refine ⟨st.next, ?_, le_refl _, hn, hlow⟩
      rw [hstep]
      have hpf : st.pending = fun k => if k ∈ P ∧ st.next ≤ k then some (f k) else none :=
        funext hpend
      cases st with
      | mk e n pnd dl fr =>
        simp only at hpf hdel ⊢
        rw [← hpf, ← hdel]

theorem insertCompleted_inv {α : Type} (N : Nat) (f : Nat → α) (P : List Nat)
    (st : DecrypterPool α) (hInv : PoolInv N f P st) (j : Nat)
    (hj1 : 1 ≤ j) (hjN : j ≤ N) (hjP : j ∉ P) :
    PoolInv N f (j :: P) (insertCompleted st j (f j)) := by
  obtain ⟨hexp, hone, hle, hlow, hnP, hPmem, hpend, hdel, hfired⟩ := hInv
  have hnextN : st.next ≤ N := by
    rcases Nat.lt_or_ge st.next (N + 1) with h | h
    · omega
    · have hn1 : st.next = N + 1 := by omega
      exact absurd (hlow j hj1 (by omega)) hjP
  have hnextj : st.next ≤ j := by
    by_contra h
    exact hjP (hlow j hj1 (by omega))
  have hpend1 : ∀ k,
      (fun k => if k = j then some (f j) else st.pending k) k
        = if k ∈ j :: P ∧ st.next ≤ k then some (f k) else none := by
    intro k
    by_cases hk : k = j
    · subst hk
      simp [hnextj]
    · simp only [hk, if_false]
      rw [hpend]
      by_cases hkP : k ∈ P
      · have hmem : k ∈ j :: P := List.mem_cons_of_mem _ hkP
        simp [hkP, hmem]
      · have hmem : k ∉ j :: P := by
          simp [hk, hkP]
        simp [hkP, hmem]
  have hgap : ∃ g, st.next ≤ g ∧ g < st.next + (st.expected + 1) ∧ g ∉ j :: P := by
    refine ⟨N + 1, by omega, by omega, ?_⟩
    intro hmem
    rcases List.mem_cons.mp hmem with h | h
    · omega
    · have := hPmem _ h
      omega
  have hlow1 : ∀ i, 1 ≤ i → i < st.next → i ∈ j :: P :=
    fun i h1 h2 => List.mem_cons_of_mem _ (hlow i h1 h2)
  obtain ⟨next', heq, hge, hn'P, hlow'⟩ :=
    poolDrain_inv f (st.expected + 1)
      { st with pending := fun k => if k = j then some (f j) else st.pending k }
      (j :: P) hpend1 hdel hone hlow1 hgap
  have hmem' : ∀ i ∈ j :: P, 1 ≤ i ∧ i ≤ N := by
    intro i hi
    rcases List.mem_cons.mp hi with h | h
    · omega
    · exact hPmem _ h
  have hnext'N : next' ≤ N + 1 := by
    by_contra h
    have h2 := hlow' (N + 1) (by omega) (by omega)
    have := hmem' _ h2
    omega
  have hfired0 : st.fired = 0 := by
    rw [hfired]
    simp
    omega
  unfold insertCompleted
  rw [heq]
  unfold poolFire
  simp only [List.length_map, List.length_range']
  by_cases hdone : next' = N + 1
  · rw [if_pos (by constructor <;> simp [hexp, hfired0, hdone])]
    refine ⟨hexp, le_trans hone hge, hnext'N, hlow', hn'P, hmem', ?_, rfl, ?_⟩
    · intro k
      rfl
    · simp [hfired0, hdone]
  · have hne : ¬ (next' - 1 = st.expected ∧ st.fired = 0) := by
      intro hcl
      rw [hexp] at hcl
      have h3 := hlow' 1 (le_refl _) ?_
      · omega
      · omega
    rw [if_neg hne]
    refine ⟨hexp, le_trans hone hge, hnext'N, hlow', hn'P, hmem', fun k => rfl, rfl, ?_⟩
    simp [hfired0, hdone]

theorem runPool_inv {α : Type} (N : Nat) (f : Nat → α) :
    ∀ (l : List Nat) (P : List Nat) (st : DecrypterPool α),
      PoolInv N f P st → l.Nodup →
      (∀ j ∈ l, 1 ≤ j ∧ j ≤ N ∧ j ∉ P) →
      ∃ P', (∀ x, x ∈ P' ↔ x ∈ l ∨ x ∈ P) ∧
        PoolInv N f P' (runPool st (l.map fun i => (i, f i)))
  | [], P, st, hInv, _, _ => ⟨P, by simp, hInv⟩
  | j :: l, P, st, hInv, hnd, hmem => by
    have hj := hmem j (List.mem_cons_self _ _)
    have hInv1 : PoolInv N f (j :: P) (insertCompleted st j (f j)) :=
      insertCompleted_inv N f P st hInv j hj.1 hj.2.1 hj.2.2
    have hnd1 : l.Nodup := (List.nodup_cons.mp hnd).2
    have hmem1 : ∀ i ∈ l, 1 ≤ i ∧ i ≤ N ∧ i ∉ j :: P := by
      intro i hi
      have h1 := hmem i (List.mem_cons_of_mem _ hi)
      refine ⟨h1.1, h1.2.1, ?_⟩
      intro hc
      rcases List.mem_cons.mp hc with h | h
      · exact (List.nodup_cons.mp hnd).1 (h ▸ hi)
      · exact h1.2.2 h
    obtain ⟨P', hiff, hInv'⟩ :=
      runPool_inv N f l (j :: P) (insertCompleted st j (f j)) hInv1 hnd1 hmem1
    refine ⟨P', ?_, ?_⟩
    · intro x
      rw [hiff x]
      simp [or_assoc, List.mem_cons]
      tauto
    · have hrun : runPool st ((j :: l).map fun i => (i, f i))
          = runPool (insertCompleted st j (f j)) (l.map fun i => (i, f i)) := rfl
      rw [hrun]
      exact hInv'

theorem poolStart_inv {α : Type} (N : Nat) (hN : 1 ≤ N) (f : Nat → α) :
    PoolInv N f [] (poolStart α N) := by
  have h1 : ¬ (1 = N + 1) := by omega
  refine ⟨rfl, le_refl 1, ?_, ?_, ?_, ?_, ?_, ?_, ?_⟩
  · show 1 ≤ N + 1
    omega
  · show ∀ i, 1 ≤ i → i < 1 → i ∈ ([] : List Nat)
    intro i hi1 hi2
    exact absurd hi2 (by omega)
  · show 1 ∉ ([] : List Nat)
    simp
  · intro i hi
    exact absurd hi (List.not_mem_nil i)
  · intro k
    show (none : Option α) = if k ∈ ([] : List Nat) ∧ 1 ≤ k then some (f k) else none
    simp
  · show ([] : List α) = (List.range' 1 (1 - 1)).map f
    simp
  · show 0 = if 1 = N + 1 then 1 else 0
    rw [if_neg h1]

/-- Claim C8 (spec-modelled): a decrypter-pool session started with
expected count `N ≥ 1`, into which documents with sequence indices
`1..N` and payloads `f` are inserted with their decryptions completing
in an arbitrary order `perm`, invokes the insertion callback exactly `N`
times, in strictly increasing sequence-index order with each index's
own payload (`delivered = map f [1..N]`); the completion signal
resolves exactly once, and only after the `N`-th callback: after any
proper prefix of the completions the delivered list is still an initial
segment `map f [1..k]` and the signal is unresolved. -/
theorem decrypter_pool_in_order {α : Type} (N : Nat) (hN : 1 ≤ N) (f : Nat → α)
    (perm : List Nat) (hperm : perm.Perm (List.range' 1 N)) :
    (runPool (poolStart α N) (perm.map fun i => (i, f i))).delivered
        = (List.range' 1 N).map f ∧
    (runPool (poolStart α N) (perm.map fun i => (i, f i))).fired = 1 ∧
    (∀ p q, perm = p ++ q →
      (∃ k, k ≤ N ∧
        (runPool (poolStart α N) (p.map fun i => (i, f i))).delivered
          = (List.range' 1 k).map f) ∧
      (q ≠ [] → (runPool (poolStart α N) (p.map fun i => (i, f i))).fired = 0)) := by
  have hnd : perm.Nodup := hperm.symm.nodup (List.nodup_range' _ _)
  have hmem : ∀ j ∈ perm, 1 ≤ j ∧ j ≤ N ∧ j ∉ ([] : List Nat) := by
    intro j hj
    have h1 := (hperm.mem_iff).mp hj
    rw [List.mem_range'_1] at h1
    exact ⟨h1.1, by omega, by simp⟩
  obtain ⟨P', hiff, hInv⟩ :=
    runPool_inv N f perm [] (poolStart α N) (poolStart_inv N hN f) hnd hmem
  obtain ⟨hexp, hone, hle, hlow, hnP, hPmem, hpend, hdel, hfired⟩ := hInv
  have hnext : (runPool (poolStart α N) (perm.map fun i => (i, f i))).next = N + 1 := by
    by_contra h
    have h2 : (runPool (poolStart α N) (perm.map fun i => (i, f i))).next ≤ N := by
      omega
    apply hnP
    rw [hiff]
    refine Or.inl ?_
    rw [hperm.mem_iff, List.mem_range'_1]
    omega
  refine ⟨?_, ?_, ?_⟩
  · rw [hdel, hnext]
    simp
  · rw [hfired, hnext]
    simp
  · intro p q hpq
    have hndp : p.Nodup := by
      rw [hpq] at hnd
      exact hnd.of_append_left
    have hmemp : ∀ j ∈ p, 1 ≤ j ∧ j ≤ N ∧ j ∉ ([] : List Nat) := by
      intro j hj
      exact hmem j (by rw [hpq]; exact List.mem_append_left _ hj)
    obtain ⟨Q, hiffQ, hInvQ⟩ :=
      runPool_inv N f p [] (poolStart α N) (poolStart_inv N hN f) hndp hmemp
    obtain ⟨hexpQ, honeQ, hleQ, hlowQ, hnPQ, hPmemQ, hpendQ, hdelQ, hfiredQ⟩ := hInvQ
    constructor
    · exact ⟨(runPool (poolStart α N) (p.map fun i => (i, f i))).next - 1,
        by omega, hdelQ⟩
    · intro hq
      obtain ⟨j, hjq⟩ : ∃ j, j ∈ q := by
        cases q with
        | nil => exact absurd rfl hq
        | cons a _ => exact ⟨a, List.mem_cons_self _ _⟩
      have hjperm : j ∈ perm := by
        rw [hpq]
        exact List.mem_append_right _ hjq
      have hjr := (hperm.mem_iff).mp hjperm
      rw [List.mem_range'_1] at hjr
      have hjnp : j ∉ p := by
        intro hc
        have hdisj : p.Disjoint q := by
          rw [hpq] at hnd
          exact List.disjoint_of_nodup_append hnd
        exact hdisj hc hjq
      rw [hfiredQ]
      have hnQ : (runPool (poolStart α N) (p.map fun i => (i, f i))).next ≠ N + 1 := by
        intro hc
        apply hjnp
        have h2 := hlowQ j (by omega) (by omega)
        rcases (hiffQ j).mp h2 with h | h
        · exact h
        · simp at h
      simp [hnQ]

/-- Claim C8 witness: three documents completing in the order 2, 3, 1
are delivered as 1, 2, 3 with the signal resolving exactly once, and
not yet resolved after the first completion. -/
theorem decrypter_pool_in_order_witness :
    (runPool (poolStart Nat 3) ([2, 3, 1].map fun i => (i, i))).delivered
        = [1, 2, 3] ∧
    (runPool (poolStart Nat 3) ([2, 3, 1].map fun i => (i, i))).fired = 1 ∧
    (runPool (poolStart Nat 3) ([2].map fun i => (i, i))).fired = 0 := by
  have h := decrypter_pool_in_order 3 (by decide) (fun i => i) [2, 3, 1] (by decide)
  refine ⟨?_, h.2.1, (h.2.2 [2] [3, 1] rfl).2 (by decide)⟩
  rw [h.1]
  rfl
